import Mathlib

/-!
Shallow embedding of the `go_cache` repository (`cache.go`): an in-memory
key-value store with per-entry TTL expiration and a sweep pass, plus a model
of its lock discipline and of its constructor.

Conventions of the embedding:
* Go `time.Duration` is a number of nanoseconds (`Int`).
* Go `time.Time` is an absolute instant in nanoseconds since the Unix epoch;
  `Time.unix` is Go's `Time.Unix()`, whole seconds obtained by floor division.
* The Go `map[string]*cacheData` is an association list with at most one
  binding per key (every binding operation removes the old binding).
* Calls to `time.Now()` inside a Go method become an explicit `now : Time`
  argument of the corresponding Lean function, one per call site.
* The lock calls of each method are modelled separately as an event trace
  (`LockOp`), in the order the method body performs them.
-/

namespace GoCache

/-- Go `time.Duration`: a count of nanoseconds. -/
abbrev Duration := Int

/-- Number of nanoseconds in a second (Go `time.Second`). -/
def nsPerSecond : Int := 1000000000

/-- Go `time.Time`: an absolute instant, nanoseconds since the Unix epoch. -/
structure Time where
  ns : Int
deriving DecidableEq

/-- Go `Time.Add ttl`: shift an instant by a duration. -/
def Time.add (t : Time) (d : Duration) : Time :=
  ⟨t.ns + d⟩

/-- Go `Time.Unix()`: whole seconds since the epoch. Go keeps the second
count and a nanosecond remainder in `[0, 1e9)`, so the second count is the
floor of the nanosecond instant divided by `1e9`. -/
def Time.unix (t : Time) : Int :=
  Int.fdiv t.ns nsPerSecond

/-- Entry type `cacheData` (cache.go): the stored payload and its absolute expiry,
saved as UNIX seconds. `V` stands for Go's `interface{}` payload type. -/
structure cacheData (V : Type) where
  data : V
  expiresAt : Int
deriving DecidableEq

/-- The Go `map[string]*cacheData` contents, as an association list. -/
abbrev CacheMap (V : Type) := List (String × cacheData V)

/-- Go map read `gcache.data[key]`: the binding of `key`, if any. -/
def mapLookup {V : Type} : CacheMap V → String → Option (cacheData V)
  | [], _ => none
  | (k, v) :: rest, key => if k = key then some v else mapLookup rest key

/-- Go `delete(gcache.data, key)`: remove the binding of `key`. -/
def mapErase {V : Type} : CacheMap V → String → CacheMap V
  | [], _ => []
  | (k, v) :: rest, key =>
      if k = key then mapErase rest key else (k, v) :: mapErase rest key

/-- Go map write `gcache.data[key] = v`: bind `key` to `v`, replacing any
previous binding. -/
def mapInsert {V : Type} (m : CacheMap V) (key : String) (v : cacheData V) :
    CacheMap V :=
  (key, v) :: mapErase m key

/-- Store type `genericMemoryCacheStruct` (cache.go): the store. The `sync.RWMutex` is
modelled by the lock traces below; the `ticker`/`doneCh` fields belong to the
sweeper lifecycle and are modelled with the constructor. -/
structure genericMemoryCacheStruct (V : Type) where
  data : CacheMap V
deriving DecidableEq

namespace genericMemoryCacheStruct

/-- Method `Get` (cache.go lines 28-37): under the read lock, look the key up;
`(nil, false)` when absent, otherwise the stored payload and `true`.
The method never writes the map and never consults `expiresAt`. -/
def Get {V : Type} (gcache : genericMemoryCacheStruct V) (key : String) :
    Option V × Bool :=
  match mapLookup gcache.data key with
  | none => (none, false)
  | some res => (some res.data, true)

/-- Method `Set` (cache.go lines 39-49): under the write lock, bind the key to a
fresh entry whose `expiresAt` is `time.Now().Add(ttl).Unix()`.
`now` is the `time.Now()` of the call. -/
def Set {V : Type} (gcache : genericMemoryCacheStruct V) (key : String)
    (data : V) (ttl : Duration) (now : Time) : genericMemoryCacheStruct V :=
  ⟨mapInsert gcache.data key ⟨data, ((now.add ttl).unix)⟩⟩

/-- Method `Delete` (cache.go lines 51-59): under the write lock, check whether the
record exists and delete it only then; absent keys leave the store as it is. -/
def Delete {V : Type} (gcache : genericMemoryCacheStruct V) (key : String) :
    genericMemoryCacheStruct V :=
  match mapLookup gcache.data key with
  | some _ => ⟨mapErase gcache.data key⟩
  | none => gcache

/-- The loop body of `clean` (cache.go lines 67-71): range over the entries
and delete every one with `now >= el.expiresAt`, keeping the rest. `nowUnix`
is the captured `time.Now().Unix()`. -/
def cleanMap {V : Type} (nowUnix : Int) : CacheMap V → CacheMap V
  | [] => []
  | (key, el) :: rest =>
      if nowUnix ≥ el.expiresAt then cleanMap nowUnix rest
      else (key, el) :: cleanMap nowUnix rest

/-- Method `clean` (cache.go lines 61-72): capture `time.Now().Unix()` once, then
sweep the map with it. `now` is the `time.Now()` of the call. -/
def clean {V : Type} (gcache : genericMemoryCacheStruct V) (now : Time) :
    genericMemoryCacheStruct V :=
  ⟨cleanMap now.unix gcache.data⟩

end genericMemoryCacheStruct

/-- Go `time.Ticker` as produced by `time.NewTicker`. -/
structure Ticker where
  interval : Duration
deriving DecidableEq

/-- Go `time.NewTicker d`: panics when `d <= 0` (the panic is modelled as
`none`), otherwise yields a ticker with period `d`. -/
def NewTicker (d : Duration) : Option Ticker :=
  if d > 0 then some ⟨d⟩ else none

/-- Outcome of `NewGenericMemoryCache` when it returns: the store, its
ticker, whether `StartStaleDataCleaner` was called, and whether a teardown
closure (rather than `nil`) was returned. -/
structure ConstructResult (V : Type) where
  cache : genericMemoryCacheStruct V
  ticker : Ticker
  sweeperStarted : Bool
  hasClosure : Bool
deriving DecidableEq

/-- Constructor `NewGenericMemoryCache` (cache.go lines 98-119): build the store with an
empty map and `time.NewTicker(cleaningInterval)` — which panics (modelled as
`none`) when the interval is not positive — then, only when the interval is
positive, start the background cleaner and return the teardown closure;
otherwise return the store with a `nil` closure. -/
def NewGenericMemoryCache (V : Type) (cleaningInterval : Duration) :
    Option (ConstructResult V) :=
  match NewTicker cleaningInterval with
  | none => none
  | some t =>
      if cleaningInterval > 0 then some ⟨⟨[]⟩, t, true, true⟩
      else some ⟨⟨[]⟩, t, false, false⟩

/-- One lock or map event of a method body. -/
inductive LockOp where
  | rlock
  | runlock
  | lock
  | unlock
  | mapRead
  | mapWrite
deriving DecidableEq

/-- The mode in which the store lock is held by the executing method. -/
inductive LockMode where
  | unlocked
  | shared
  | exclusive
deriving DecidableEq

/-- Events of `Get` (cache.go lines 28-37): `RLock`, read the map, then the
deferred `RUnlock` on every return path. -/
def GetTrace : List LockOp :=
  [LockOp.rlock, LockOp.mapRead, LockOp.runlock]

/-- Events of `Set` (cache.go lines 39-49): `Lock`, write the map, then the
deferred `Unlock`. -/
def SetTrace : List LockOp :=
  [LockOp.lock, LockOp.mapWrite, LockOp.unlock]

/-- Events of `Delete` (cache.go lines 51-59) on a present key: `Lock`, read
the map, delete from it, then the deferred `Unlock`. -/
def DeleteTrace : List LockOp :=
  [LockOp.lock, LockOp.mapRead, LockOp.mapWrite, LockOp.unlock]

/-- Events of `clean` (cache.go lines 61-72) on a map holding at least one
expired entry: `RLock`, range over the map, `delete` from it, then the
deferred `RUnlock`. -/
def cleanTrace : List LockOp :=
  [LockOp.rlock, LockOp.mapRead, LockOp.mapWrite, LockOp.runlock]

/-- Checks that along a trace, starting in mode `m`, every map write happens
while the exclusive lock is held and every map read while some lock is held. -/
def writesExclusively : LockMode → List LockOp → Bool
  | _, [] => true
  | _, LockOp.rlock :: rest => writesExclusively LockMode.shared rest
  | _, LockOp.lock :: rest => writesExclusively LockMode.exclusive rest
  | _, LockOp.runlock :: rest => writesExclusively LockMode.unlocked rest
  | _, LockOp.unlock :: rest => writesExclusively LockMode.unlocked rest
  | m, LockOp.mapRead :: rest =>
      (m != LockMode.unlocked) && writesExclusively m rest
  | m, LockOp.mapWrite :: rest =>
      (m == LockMode.exclusive) && writesExclusively m rest

/-- The lock mode left at the end of a trace started in mode `m`: a method
releases the lock on every exit path exactly when this is `unlocked`. -/
def finalMode : LockMode → List LockOp → LockMode
  | m, [] => m
  | _, LockOp.rlock :: rest => finalMode LockMode.shared rest
  | _, LockOp.lock :: rest => finalMode LockMode.exclusive rest
  | _, LockOp.runlock :: rest => finalMode LockMode.unlocked rest
  | _, LockOp.unlock :: rest => finalMode LockMode.unlocked rest
  | m, LockOp.mapRead :: rest => finalMode m rest
  | m, LockOp.mapWrite :: rest => finalMode m rest

end GoCache

namespace GoCache

/-! ### Lemmas about the map model -/

theorem mapLookup_mapErase_self {V : Type} (m : CacheMap V) (key : String) :
    mapLookup (mapErase m key) key = none := by
  induction m with
  | nil => rfl
  | cons p rest ih =>
      obtain ⟨k, e⟩ := p
      by_cases hk : k = key
      · simp only [mapErase, if_pos hk]
        exact ih
      · simp only [mapErase, if_neg hk, mapLookup]
        exact ih

theorem mapLookup_mapInsert_self {V : Type} (m : CacheMap V) (key : String)
    (v : cacheData V) : mapLookup (mapInsert m key v) key = some v := by
  show (if key = key then some v else mapLookup (mapErase m key) key) = some v
  rw [if_pos rfl]

theorem mapLookup_cleanMap_of_not_mem {V : Type} (t : Int) (m : CacheMap V)
    (key : String) (h : key ∉ m.map Prod.fst) :
    mapLookup (genericMemoryCacheStruct.cleanMap t m) key = none := by
  induction m with
  | nil => rfl
  | cons p rest ih =>
      obtain ⟨k, e⟩ := p
      simp only [List.map_cons, List.mem_cons, not_or] at h
      have hk : ¬ k = key := fun hk => h.1 hk.symm
      by_cases hexp : t ≥ e.expiresAt
      · simp only [genericMemoryCacheStruct.cleanMap, if_pos hexp]
        exact ih h.2
      · simp only [genericMemoryCacheStruct.cleanMap, if_neg hexp, mapLookup, if_neg hk]
        exact ih h.2

theorem mapLookup_cleanMap_some {V : Type} (t : Int) (m : CacheMap V)
    (key : String) (el : cacheData V)
    (hnd : (m.map Prod.fst).Nodup) (hel : mapLookup m key = some el) :
    mapLookup (genericMemoryCacheStruct.cleanMap t m) key
      = if t ≥ el.expiresAt then none else some el := by
  induction m with
  | nil => cases hel
  | cons p rest ih =>
      obtain ⟨k, e⟩ := p
      simp only [List.map_cons, List.nodup_cons] at hnd
      have hel2 : (if k = key then some e else mapLookup rest key) = some el := hel
      by_cases hk : k = key
      · subst hk
        rw [if_pos rfl] at hel2
        have he : e = el := Option.some_inj.mp hel2
        subst he
        by_cases hexp : t ≥ e.expiresAt
        · simp only [genericMemoryCacheStruct.cleanMap, if_pos hexp]
          exact mapLookup_cleanMap_of_not_mem t rest k hnd.1
        · simp only [genericMemoryCacheStruct.cleanMap, if_neg hexp]
          show (if k = k then some e
              else mapLookup (genericMemoryCacheStruct.cleanMap t rest) k) = some e
          rw [if_pos rfl]
      · rw [if_neg hk] at hel2
        by_cases hexp : t ≥ e.expiresAt
        · simp only [genericMemoryCacheStruct.cleanMap, if_pos hexp]
          exact ih hnd.2 hel2
        · simp only [genericMemoryCacheStruct.cleanMap, if_neg hexp]
          show (if k = key then some e
              else mapLookup (genericMemoryCacheStruct.cleanMap t rest) key)
            = if t ≥ el.expiresAt then none else some el
          rw [if_neg hk]
          exact ih hnd.2 hel2

end GoCache

namespace GoCache

/-! ### Claim theorems -/

/-- Claim C1: a sweep pass captures `time.Now().Unix()` once; afterwards a key
bound in the map is absent exactly when its entry's `expiresAt` was less than
or equal to that captured time, and an entry whose `expiresAt` is strictly
greater is left unmodified (same value, same expiry). A Go map has at most one
binding per key, which is the `Nodup` hypothesis. -/
theorem gc_clean_removes_exactly_expired {V : Type}
    (s : genericMemoryCacheStruct V) (now : Time) (key : String)
    (el : cacheData V) (hnd : (s.data.map Prod.fst).Nodup)
    (hel : mapLookup s.data key = some el) :
    (mapLookup (s.clean now).data key = none ↔ el.expiresAt ≤ now.unix) ∧
    (now.unix < el.expiresAt → mapLookup (s.clean now).data key = some el) := by
  have h : mapLookup (s.clean now).data key
      = if now.unix ≥ el.expiresAt then none else some el :=
    mapLookup_cleanMap_some now.unix s.data key el hnd hel
  by_cases hexp : now.unix ≥ el.expiresAt
  · have hexp2 : el.expiresAt ≤ now.unix := hexp
    rw [h, if_pos hexp]
    exact ⟨⟨fun _ => hexp2, fun _ => rfl⟩, fun hlt => absurd hexp2 (not_le.mpr hlt)⟩
  · rw [h, if_neg hexp]
    exact ⟨⟨fun hc => (Option.some_ne_none el hc).elim, fun hle => absurd hle hexp⟩,
      fun _ => rfl⟩

/-- Witness for C1 at a concrete store: sweeping at unix time 10 removes the
entry that expired at 5 and leaves the entry expiring at 20 unchanged. -/
theorem gc_clean_removes_exactly_expired_witness :
    ((([("a", (⟨1, 5⟩ : cacheData Nat)), ("b", ⟨2, 20⟩)]).map Prod.fst).Nodup
      ∧ mapLookup [("a", (⟨1, 5⟩ : cacheData Nat)), ("b", ⟨2, 20⟩)] "a" = some ⟨1, 5⟩)
    ∧ ((mapLookup ((genericMemoryCacheStruct.clean
            (⟨[("a", ⟨1, 5⟩), ("b", ⟨2, 20⟩)]⟩ : genericMemoryCacheStruct Nat)
            ⟨10 * nsPerSecond⟩).data) "a" = none
        ↔ (5 : Int) ≤ (Time.mk (10 * nsPerSecond)).unix)
      ∧ ((Time.mk (10 * nsPerSecond)).unix < 5 →
          mapLookup ((genericMemoryCacheStruct.clean
            (⟨[("a", ⟨1, 5⟩), ("b", ⟨2, 20⟩)]⟩ : genericMemoryCacheStruct Nat)
            ⟨10 * nsPerSecond⟩).data) "a" = some ⟨1, 5⟩)) :=
  ⟨⟨by decide, by decide⟩,
    gc_clean_removes_exactly_expired
      (⟨[("a", ⟨1, 5⟩), ("b", ⟨2, 20⟩)]⟩ : genericMemoryCacheStruct Nat)
      ⟨10 * nsPerSecond⟩ "a" ⟨1, 5⟩ (by decide) (by decide)⟩

/-- Claim C2 (code bug): Get reads under the shared lock, Set and Delete write
under the exclusive lock, and every method leaves the lock released — but the
`clean` sweep acquires only the shared (read) lock and then mutates the map,
so `writesExclusively` rejects its trace. -/
theorem gc_clean_sweeps_under_shared_lock :
    writesExclusively LockMode.unlocked GetTrace = true ∧
    writesExclusively LockMode.unlocked SetTrace = true ∧
    writesExclusively LockMode.unlocked DeleteTrace = true ∧
    finalMode LockMode.unlocked GetTrace = LockMode.unlocked ∧
    finalMode LockMode.unlocked SetTrace = LockMode.unlocked ∧
    finalMode LockMode.unlocked DeleteTrace = LockMode.unlocked ∧
    finalMode LockMode.unlocked cleanTrace = LockMode.unlocked ∧
    writesExclusively LockMode.unlocked cleanTrace = false := by
  decide

/-- Claim C3: expiration is lazy. A Get on a key whose entry is still in the
map returns the stored value and `true` even when `expiresAt` is already past
`now`; the read consults only presence, and the entry stays visible to Delete,
which takes its erase branch on it. -/
theorem gc_get_lazy_expired_visible {V : Type}
    (s : genericMemoryCacheStruct V) (key : String) (el : cacheData V)
    (now : Time) (hel : mapLookup s.data key = some el)
    (hexp : el.expiresAt ≤ now.unix) :
    s.Get key = (some el.data, true) ∧
    s.Delete key = ⟨mapErase s.data key⟩ := by
  constructor
  · show (match mapLookup s.data key with
      | none => ((none : Option V), false)
      | some res => (some res.data, true)) = (some el.data, true)
    rw [hel]
  · show (match mapLookup s.data key with
      | some _ => (⟨mapErase s.data key⟩ : genericMemoryCacheStruct V)
      | none => s) = ⟨mapErase s.data key⟩
    rw [hel]

/-- Witness for C3: entry ("k" ↦ 7, expiry 5) at unix time 10 is expired yet
Get still returns it. -/
theorem gc_get_lazy_expired_visible_witness :
    (mapLookup [("k", (⟨7, 5⟩ : cacheData Nat))] "k" = some ⟨7, 5⟩
      ∧ (5 : Int) ≤ (Time.mk (10 * nsPerSecond)).unix)
    ∧ (genericMemoryCacheStruct.Get
        (⟨[("k", ⟨7, 5⟩)]⟩ : genericMemoryCacheStruct Nat) "k" = (some 7, true)
      ∧ genericMemoryCacheStruct.Delete
          (⟨[("k", ⟨7, 5⟩)]⟩ : genericMemoryCacheStruct Nat) "k"
        = ⟨mapErase [("k", ⟨7, 5⟩)] "k"⟩) :=
  ⟨⟨by decide, by decide⟩,
    gc_get_lazy_expired_visible
      (⟨[("k", ⟨7, 5⟩)]⟩ : genericMemoryCacheStruct Nat) "k" ⟨7, 5⟩
      ⟨10 * nsPerSecond⟩ (by decide) (by decide)⟩

end GoCache

namespace GoCache

/-- Claim C4 counterexample: the store still holds ("k" ↦ 7) with
`expiresAt = 5`, the current time is unix second 10, so the key is logically
expired and unswept — yet `Get` answers `(some 7, true)`, which differs from
the `(none, false)` that the never-set key "neverset" gets. -/
theorem gc_expired_get_found_counterexample :
    ((5 : Int) ≤ (Time.mk (10 * nsPerSecond)).unix)
    ∧ mapLookup [("k", (⟨7, 5⟩ : cacheData Nat))] "k" = some ⟨7, 5⟩
    ∧ genericMemoryCacheStruct.Get
        (⟨[("k", ⟨7, 5⟩)]⟩ : genericMemoryCacheStruct Nat) "k" = (some 7, true)
    ∧ genericMemoryCacheStruct.Get
        (⟨[("k", ⟨7, 5⟩)]⟩ : genericMemoryCacheStruct Nat) "k"
      ≠ genericMemoryCacheStruct.Get
        (⟨[("k", ⟨7, 5⟩)]⟩ : genericMemoryCacheStruct Nat) "neverset" := by
  decide

/-- Claim C4 (amended): a Get on a logically expired but not-yet-removed key
returns the stored value and `true` — no expiry check happens on read — so its
result is NOT identical to a Get on a never-set key, which reports
`(none, false)`; only actually-absent keys report not-found. -/
theorem gc_expired_get_reports_found {V : Type}
    (s : genericMemoryCacheStruct V) (key : String) (el : cacheData V)
    (now : Time) (hel : mapLookup s.data key = some el)
    (hexp : el.expiresAt ≤ now.unix) :
    s.Get key = (some el.data, true) ∧
    s.Get key ≠ ((none : Option V), false) := by
  have hg : s.Get key = (some el.data, true) := by
    show (match mapLookup s.data key with
      | none => ((none : Option V), false)
      | some res => (some res.data, true)) = (some el.data, true)
    rw [hel]
  refine ⟨hg, ?_⟩
  rw [hg]
  exact fun hc => Bool.noConfusion (congrArg Prod.snd hc)

/-- Witness for the amended C4 at a concrete expired entry. -/
theorem gc_expired_get_reports_found_witness :
    (mapLookup [("x", (⟨3, 4⟩ : cacheData Nat))] "x" = some ⟨3, 4⟩
      ∧ (4 : Int) ≤ (Time.mk (9 * nsPerSecond)).unix)
    ∧ (genericMemoryCacheStruct.Get
        (⟨[("x", ⟨3, 4⟩)]⟩ : genericMemoryCacheStruct Nat) "x" = (some 3, true)
      ∧ genericMemoryCacheStruct.Get
          (⟨[("x", ⟨3, 4⟩)]⟩ : genericMemoryCacheStruct Nat) "x"
        ≠ ((none : Option Nat), false)) :=
  ⟨⟨by decide, by decide⟩,
    gc_expired_get_reports_found
      (⟨[("x", ⟨3, 4⟩)]⟩ : genericMemoryCacheStruct Nat) "x" ⟨3, 4⟩
      ⟨9 * nsPerSecond⟩ (by decide) (by decide)⟩

/-- Claim C5: a Get on an absent key — never set, or deleted and not set
again — returns `(none, false)`: absence is reported only through the boolean
component, and the result type `Option V × Bool` carries no error at all. -/
theorem gc_get_missing_not_found {V : Type}
    (s : genericMemoryCacheStruct V) (key : String)
    (h : mapLookup s.data key = none) :
    s.Get key = ((none : Option V), false) ∧
    (s.Delete key).Get key = ((none : Option V), false) := by
  have hget : ∀ t : genericMemoryCacheStruct V, mapLookup t.data key = none →
      t.Get key = ((none : Option V), false) := by
    intro t ht
    show (match mapLookup t.data key with
      | none => ((none : Option V), false)
      | some res => (some res.data, true)) = ((none : Option V), false)
    rw [ht]
  refine ⟨hget s h, ?_⟩
  cases hl : mapLookup s.data key with
  | none =>
      have hd : s.Delete key = s := by
        show (match mapLookup s.data key with
          | some _ => (⟨mapErase s.data key⟩ : genericMemoryCacheStruct V)
          | none => s) = s
        rw [hl]
      rw [hd]
      exact hget s hl
  | some e =>
      have hd : s.Delete key = ⟨mapErase s.data key⟩ := by
        show (match mapLookup s.data key with
          | some _ => (⟨mapErase s.data key⟩ : genericMemoryCacheStruct V)
          | none => s) = ⟨mapErase s.data key⟩
        rw [hl]
      rw [hd]
      exact hget _ (mapLookup_mapErase_self s.data key)

/-- Witness for C5 on a store that never held the key "missing". -/
theorem gc_get_missing_not_found_witness :
    (mapLookup [("a", (⟨1, 5⟩ : cacheData Nat))] "missing" = none)
    ∧ (genericMemoryCacheStruct.Get
        (⟨[("a", ⟨1, 5⟩)]⟩ : genericMemoryCacheStruct Nat) "missing"
          = ((none : Option Nat), false)
      ∧ (genericMemoryCacheStruct.Delete
          (⟨[("a", ⟨1, 5⟩)]⟩ : genericMemoryCacheStruct Nat) "missing").Get "missing"
          = ((none : Option Nat), false)) :=
  ⟨by decide,
    gc_get_missing_not_found
      (⟨[("a", ⟨1, 5⟩)]⟩ : genericMemoryCacheStruct Nat) "missing" (by decide)⟩

end GoCache

namespace GoCache

/-- Claim C6: Set has no failure path — it is a total function — and for any
positive ttl, a Get of the same key immediately afterwards (no intervening
operation) returns `(some v, true)`, the entry having been stored with
`expiresAt = now + ttl` in whole Unix seconds. -/
theorem gc_set_then_get {V : Type} (s : genericMemoryCacheStruct V)
    (key : String) (v : V) (ttl : Duration) (now : Time) (h : 0 < ttl) :
    (s.Set key v ttl now).Get key = (some v, true) ∧
    mapLookup (s.Set key v ttl now).data key = some ⟨v, (now.add ttl).unix⟩ := by
  have hl : mapLookup (s.Set key v ttl now).data key
      = some ⟨v, (now.add ttl).unix⟩ :=
    mapLookup_mapInsert_self s.data key _
  refine ⟨?_, hl⟩
  show (match mapLookup (s.Set key v ttl now).data key with
    | none => ((none : Option V), false)
    | some res => (some res.data, true)) = (some v, true)
  rw [hl]

/-- Witness for C6: set "k" ↦ 7 with a 5-second ttl at time 0, then read it. -/
theorem gc_set_then_get_witness :
    ((0 : Int) < 5 * nsPerSecond)
    ∧ ((genericMemoryCacheStruct.Set (⟨[]⟩ : genericMemoryCacheStruct Nat)
          "k" 7 (5 * nsPerSecond) ⟨0⟩).Get "k" = (some 7, true)
      ∧ mapLookup (genericMemoryCacheStruct.Set (⟨[]⟩ : genericMemoryCacheStruct Nat)
          "k" 7 (5 * nsPerSecond) ⟨0⟩).data "k"
        = some ⟨7, (Time.add ⟨0⟩ (5 * nsPerSecond)).unix⟩) :=
  ⟨by decide,
    gc_set_then_get (⟨[]⟩ : genericMemoryCacheStruct Nat)
      "k" 7 (5 * nsPerSecond) ⟨0⟩ (by decide)⟩

/-- Claim C7: overwriting is last-write-wins including the TTL: after two Sets
of the same key, Get returns the second value and the stored entry carries the
second write's `expiresAt = now2 + ttl2`; the first value and expiry are gone. -/
theorem gc_overwrite_last_wins {V : Type} (s : genericMemoryCacheStruct V)
    (key : String) (v1 v2 : V) (ttl1 ttl2 : Duration) (now1 now2 : Time) :
    ((s.Set key v1 ttl1 now1).Set key v2 ttl2 now2).Get key = (some v2, true) ∧
    mapLookup ((s.Set key v1 ttl1 now1).Set key v2 ttl2 now2).data key
      = some ⟨v2, (now2.add ttl2).unix⟩ := by
  have hl : mapLookup ((s.Set key v1 ttl1 now1).Set key v2 ttl2 now2).data key
      = some ⟨v2, (now2.add ttl2).unix⟩ :=
    mapLookup_mapInsert_self _ key _
  refine ⟨?_, hl⟩
  show (match mapLookup ((s.Set key v1 ttl1 now1).Set key v2 ttl2 now2).data key with
    | none => ((none : Option V), false)
    | some res => (some res.data, true)) = (some v2, true)
  rw [hl]

/-- Claim C8: Delete removes the key if present — after `Delete` the key is
absent from the map, whatever it was bound to — is a no-op, not an error, on
an absent key (the store is returned exactly as it was), and deleting twice
in a row leaves the same store state as deleting once. -/
theorem gc_delete_idempotent_noop {V : Type}
    (s : genericMemoryCacheStruct V) (key : String) :
    mapLookup (s.Delete key).data key = none ∧
    (s.Delete key).Delete key = s.Delete key ∧
    (mapLookup s.data key = none → s.Delete key = s) := by
  cases h : mapLookup s.data key with
  | none =>
      have hd : s.Delete key = s := by
        show (match mapLookup s.data key with
          | some _ => (⟨mapErase s.data key⟩ : genericMemoryCacheStruct V)
          | none => s) = s
        rw [h]
      refine ⟨?_, ?_, fun _ => hd⟩
      · rw [hd]
        exact h
      · rw [hd]
        exact hd
  | some e =>
      have hd : s.Delete key = ⟨mapErase s.data key⟩ := by
        show (match mapLookup s.data key with
          | some _ => (⟨mapErase s.data key⟩ : genericMemoryCacheStruct V)
          | none => s) = ⟨mapErase s.data key⟩
        rw [h]
      refine ⟨?_, ?_, ?_⟩
      · rw [hd]
        exact mapLookup_mapErase_self s.data key
      · rw [hd]
        show (match mapLookup (mapErase s.data key) key with
          | some _ => (⟨mapErase (mapErase s.data key) key⟩ : genericMemoryCacheStruct V)
          | none => (⟨mapErase s.data key⟩ : genericMemoryCacheStruct V))
          = ⟨mapErase s.data key⟩
        rw [mapLookup_mapErase_self]
      · intro hnone
        exact Option.noConfusion hnone

end GoCache

namespace GoCache

/-- Witness for C8 on a one-entry store: deleting the present key "a" leaves
"a" unbound, while deleting the absent key "b" twice equals deleting it once
and is a no-op on the whole store state. -/
theorem gc_delete_idempotent_noop_witness :
    (mapLookup (genericMemoryCacheStruct.Delete
          (⟨[("a", (⟨1, 5⟩ : cacheData Nat))]⟩ : genericMemoryCacheStruct Nat)
          "a").data "a" = none)
    ∧ (mapLookup [("a", (⟨1, 5⟩ : cacheData Nat))] "b" = none)
    ∧ (genericMemoryCacheStruct.Delete (genericMemoryCacheStruct.Delete
          (⟨[("a", ⟨1, 5⟩)]⟩ : genericMemoryCacheStruct Nat) "b") "b"
        = genericMemoryCacheStruct.Delete
          (⟨[("a", ⟨1, 5⟩)]⟩ : genericMemoryCacheStruct Nat) "b"
      ∧ genericMemoryCacheStruct.Delete
          (⟨[("a", ⟨1, 5⟩)]⟩ : genericMemoryCacheStruct Nat) "b"
        = (⟨[("a", ⟨1, 5⟩)]⟩ : genericMemoryCacheStruct Nat)) :=
  ⟨(gc_delete_idempotent_noop
      (⟨[("a", ⟨1, 5⟩)]⟩ : genericMemoryCacheStruct Nat) "a").1,
    by decide,
    (gc_delete_idempotent_noop
      (⟨[("a", ⟨1, 5⟩)]⟩ : genericMemoryCacheStruct Nat) "b").2.1,
    (gc_delete_idempotent_noop
      (⟨[("a", ⟨1, 5⟩)]⟩ : genericMemoryCacheStruct Nat) "b").2.2 (by decide)⟩

/-- Claim C9 (code bug): the constructor builds an empty store and starts the
cleaner (returning a teardown closure) exactly when the interval is positive —
but because `time.NewTicker(cleaningInterval)` runs before the interval check
and panics for any interval ≤ 0, construction with a zero or negative interval
never returns a store at all; the no-sweeper branch is unreachable. -/
theorem gc_constructor_panics_on_nonpositive :
    NewGenericMemoryCache Nat 0 = none ∧
    NewGenericMemoryCache Nat (-nsPerSecond) = none ∧
    NewGenericMemoryCache Nat nsPerSecond
      = some ⟨⟨[]⟩, ⟨nsPerSecond⟩, true, true⟩ := by
  decide

/-- Claim C10: `expiresAt` is truncated to whole Unix seconds, so for every
ttl with 0 < ttl < 1 second there is a write instant (any exact second
boundary, e.g. `now = 0`) at which `now + ttl` truncates to the current
second; the freshly written, not-yet-expired entry then satisfies
`now >= expiresAt` and a clean pass run in that same second removes it. -/
theorem gc_subsecond_ttl_sweepable {V : Type} (v : V) (ttl : Duration)
    (h1 : 0 < ttl) (h2 : ttl < nsPerSecond) :
    ∃ now : Time,
      (Time.add now ttl).unix = now.unix ∧
      ∀ key : String,
        mapLookup
          (((⟨[]⟩ : genericMemoryCacheStruct V).Set key v ttl now).clean now).data
          key = none := by
  have hadd : (Time.add ⟨0⟩ ttl).unix = 0 := by
    show Int.fdiv (0 + ttl) nsPerSecond = 0
    rw [Int.zero_add, Int.fdiv_eq_ediv ttl (by decide)]
    exact Int.ediv_eq_zero_of_lt (Int.le_of_lt h1) h2
  have h0 : (Time.mk 0).unix = 0 := rfl
  refine ⟨⟨0⟩, by rw [hadd, h0], ?_⟩
  intro key
  show mapLookup
      (genericMemoryCacheStruct.cleanMap ((Time.mk 0).unix)
        ((key, ⟨v, (Time.add ⟨0⟩ ttl).unix⟩) :: mapErase [] key)) key = none
  rw [hadd, h0]
  simp only [genericMemoryCacheStruct.cleanMap, if_pos (le_refl (0 : Int))]
  rfl

/-- Witness for C10 at ttl = 1ns: the entry written at instant 0 with a 1ns
ttl is removed by a sweep run at instant 0. -/
theorem gc_subsecond_ttl_sweepable_witness :
    ((0 : Int) < 1 ∧ (1 : Int) < nsPerSecond)
    ∧ (∃ now : Time,
        (Time.add now 1).unix = now.unix ∧
        ∀ key : String,
          mapLookup
            (((⟨[]⟩ : genericMemoryCacheStruct Nat).Set key 7 1 now).clean now).data
            key = none) :=
  ⟨⟨by decide, by decide⟩,
    gc_subsecond_ttl_sweepable (7 : Nat) 1 (by decide) (by decide)⟩

end GoCache
